import Mathlib

/-!
# Token-Surfer V6 — strategy core, shallow embedding

A shallow embedding of `src/strategy.ts` (the `Strategy` class) together
with the configuration constants of `src/token-config.ts`.  Prices and
indicator values are modelled as rationals; the mutable class instance is
modelled as an explicit state record threaded through each method.
Methods that mutate the instance return the new state; `closePosition`,
which can throw, returns an `Except` result paired with the state the
caller observes afterwards (on a throw the JavaScript object is unchanged,
so the error branch returns the input state).
-/

namespace TokenSurfer

/-- Configuration constants from `token-config.ts` that the strategy core
reads.  They are environment-dependent in the source, so theorems
quantify over them; `defaultConfig` records the fallback values. -/
structure Config where
  emaFastLen : ℕ
  emaSlowLen : ℕ
  atrLen : ℕ
  zoneAtrMult : ℚ
  minEmaSlope : ℚ
  tp1Pct : ℚ
  tp2Pct : ℚ
  slPct : ℚ
  trailPct : ℚ
  maxBarsInPos : ℕ
  cooldownBars : ℕ
deriving DecidableEq, Repr

/-- The fallback configuration values of `token-config.ts`. -/
def defaultConfig : Config :=
  { emaFastLen := 14, emaSlowLen := 50, atrLen := 14, zoneAtrMult := 1/2,
    minEmaSlope := 3/100, tp1Pct := 8/100, tp2Pct := 0, slPct := 4/100,
    trailPct := 0, maxBarsInPos := 12, cooldownBars := 3 }

/-- `WARMUP_BARS = Math.max(EMA_SLOW_LEN, ATR_LEN) + 5`. -/
def warmupBars (cfg : Config) : ℕ := max cfg.emaSlowLen cfg.atrLen + 5

/-- An OHLC bar (`interface Bar`); volume is unused by the strategy core. -/
structure Bar where
  t : ℤ
  o : ℚ
  h : ℚ
  l : ℚ
  c : ℚ
deriving DecidableEq, Repr

instance : Inhabited Bar := ⟨⟨0, 0, 0, 0, 0⟩⟩

/-- An open position (`interface Position`). -/
structure Position where
  entryPrice : ℚ
  entryBar : ℤ
  entryTime : ℤ
  highSinceEntry : ℚ
  tokenAmount : ℚ
  usdcSpent : ℚ
  txSignature : Option String
deriving DecidableEq, Repr

/-- `type ExitReason`. -/
inductive ExitReason where
  | tp1 | tp2 | trail | sl | timeout
deriving DecidableEq, Repr

/-- `interface ExitSignal`. -/
structure ExitSignal where
  reason : ExitReason
  pnlPct : ℚ
  barsHeld : ℤ
deriving DecidableEq, Repr

/-- `interface EntrySignal`. -/
structure EntrySignal where
  price : ℚ
  emaFast : ℚ
  emaSlow : ℚ
  atr : ℚ
  slope : ℚ
  zoneDepth : ℚ
deriving DecidableEq, Repr

/-- `interface Indicators`. -/
structure Indicators where
  emaFast : ℚ
  emaSlow : ℚ
  atr : ℚ
  slope : ℚ
  buyZoneTop : ℚ
  ready : Bool
deriving DecidableEq, Repr

/-- The mutable fields of `class Strategy`. -/
structure SState where
  bars : List Bar
  emaFastArr : List ℚ
  emaSlowArr : List ℚ
  atrArr : List ℚ
  cooldownRemaining : ℕ
  position : Option Position
  totalTrades : ℕ
  totalWins : ℕ
  totalPnlPct : ℚ
  peakEquity : ℚ
  equity : ℚ
  maxDrawdown : ℚ
deriving DecidableEq, Repr

/-- The field initializers of `class Strategy`. -/
def initState : SState :=
  { bars := [], emaFastArr := [], emaSlowArr := [], atrArr := [],
    cooldownRemaining := 0, position := none,
    totalTrades := 0, totalWins := 0, totalPnlPct := 0,
    peakEquity := 1, equity := 1, maxDrawdown := 0 }

/-- `Math.min(Math.max(x, lo), hi)` as used by the spike clamp. -/
def clampQ (x lo hi : ℚ) : ℚ := min (max x lo) hi

/-- The spike filter of `addBar` (lines 90–109): when a previous bar
exists and the incoming bar trips the corruption test, every OHLC field
is clamped into `[prevClose*0.33, prevClose*3]`; otherwise the bar is
kept as-is. -/
def sanitizeBar (prev : Option Bar) (b : Bar) : Bar :=
  match prev with
  | none => b
  | some p =>
    let maxPrice := p.c * 3
    let minPrice := p.c * (33/100)
    if b.h > maxPrice ∨ b.l < minPrice ∨ b.o > maxPrice ∨ b.c > maxPrice then
      { t := b.t,
        o := clampQ b.o minPrice maxPrice,
        h := clampQ b.h minPrice maxPrice,
        l := clampQ b.l minPrice maxPrice,
        c := clampQ b.c minPrice maxPrice }
    else b

/-- The true range of bar `b` given the previous bar (lines 135–139). -/
def trueRange (prev b : Bar) : ℚ :=
  max (b.h - b.l) (max |b.h - prev.c| |b.l - prev.c|)

/-- Helper for `trList`: true ranges of a tail of bars, given the bar
preceding the tail. -/
def trAux : Bar → List Bar → List ℚ
  | _, [] => []
  | p, b :: rest => trueRange p b :: trAux b rest

/-- The list of true ranges of a bar list, first bar contributing
`high - low` (the `trSum` recomputation loop of lines 142–149 sums this
list). -/
def trList : List Bar → List ℚ
  | [] => []
  | b :: rest => (b.h - b.l) :: trAux b rest

/-- `Strategy.addBar` (lines 89–162): sanitize, append the bar, extend the
two EMA series and the ATR series by one value each, tick the cooldown. -/
def addBar (cfg : Config) (s : SState) (bar0 : Bar) : SState :=
  let bar := sanitizeBar s.bars.getLast? bar0
  let bars := s.bars ++ [bar]
  let n := bars.length
  let emaFastArr :=
    if n = 1 then s.emaFastArr ++ [bar.c]
    else
      let k : ℚ := 2 / ((cfg.emaFastLen : ℚ) + 1)
      s.emaFastArr ++ [bar.c * k + s.emaFastArr.getD (n - 2) 0 * (1 - k)]
  let emaSlowArr :=
    if n = 1 then s.emaSlowArr ++ [bar.c]
    else
      let k : ℚ := 2 / ((cfg.emaSlowLen : ℚ) + 1)
      s.emaSlowArr ++ [bar.c * k + s.emaSlowArr.getD (n - 2) 0 * (1 - k)]
  let atrArr :=
    if n = 1 then s.atrArr ++ [bar.h - bar.l]
    else
      let prev := bars.getD (n - 2) default
      let tr := trueRange prev bar
      if n ≤ cfg.atrLen then
        s.atrArr ++ [(trList bars).sum / (n : ℚ)]
      else
        let prevAtr := s.atrArr.getD (n - 2) 0
        s.atrArr ++ [(prevAtr * ((cfg.atrLen : ℚ) - 1) + tr) / (cfg.atrLen : ℚ)]
  let cooldownRemaining :=
    if 0 < s.cooldownRemaining then s.cooldownRemaining - 1 else s.cooldownRemaining
  { s with bars := bars, emaFastArr := emaFastArr, emaSlowArr := emaSlowArr,
           atrArr := atrArr, cooldownRemaining := cooldownRemaining }

/-- `Strategy.getIndicators` (lines 167–183). -/
def getIndicators (cfg : Config) (s : SState) : Indicators :=
  let n := s.bars.length
  if n = 0 then
    { emaFast := 0, emaSlow := 0, atr := 0, slope := 0, buyZoneTop := 0, ready := false }
  else
    let emaFast := s.emaFastArr.getD (n - 1) 0
    let emaSlow := s.emaSlowArr.getD (n - 1) 0
    let atr := s.atrArr.getD (n - 1) 0
    let slope := if emaSlow > 0 then (emaFast - emaSlow) / emaSlow else 0
    let buyZoneTop := emaFast - atr * cfg.zoneAtrMult
    { emaFast := emaFast, emaSlow := emaSlow, atr := atr, slope := slope,
      buyZoneTop := buyZoneTop, ready := decide (warmupBars cfg ≤ n) }

/-- `Strategy.checkEntry` (lines 189–214): pure, mutates nothing. -/
def checkEntry (cfg : Config) (s : SState) (currentPrice : ℚ) : Option EntrySignal :=
  let ind := getIndicators cfg s
  if ind.ready = false then none
  else if s.position.isSome then none
  else if 0 < s.cooldownRemaining then none
  else if ind.slope < cfg.minEmaSlope then none
  else if currentPrice > ind.buyZoneTop then none
  else if ind.atr ≤ 0 then none
  else
    some { price := currentPrice, emaFast := ind.emaFast, emaSlow := ind.emaSlow,
           atr := ind.atr, slope := ind.slope,
           zoneDepth := (ind.buyZoneTop - currentPrice) / ind.atr }

/-- `Strategy.openPosition` (lines 219–231).  The source never checks for
an existing position; it unconditionally overwrites `this.position`.
`now` stands for `Math.floor(Date.now() / 1000)`, used only when no bar
has been recorded yet. -/
def openPosition (s : SState) (entryPrice tokenAmount usdcSpent : ℚ)
    (txSig : Option String) (now : ℤ) : SState :=
  let n := s.bars.length
  let pos : Position :=
    { entryPrice := entryPrice,
      entryBar := (n : ℤ) - 1,
      entryTime := (s.bars.getLast?.map Bar.t).getD now,
      highSinceEntry := entryPrice,
      tokenAmount := tokenAmount,
      usdcSpent := usdcSpent,
      txSignature := txSig }
  { s with position := some pos }

/-- `Strategy.checkExit` (lines 237–279): returns the optional signal and
the state after the high-watermark side effect. -/
def checkExit (cfg : Config) (s : SState) (currentPrice : ℚ) :
    Option ExitSignal × SState :=
  match s.position with
  | none => (none, s)
  | some pos0 =>
    let barsHeld : ℤ := (s.bars.length : ℤ) - 1 - pos0.entryBar
    let pnlPct := (currentPrice - pos0.entryPrice) / pos0.entryPrice
    let pos := if currentPrice > pos0.highSinceEntry
               then { pos0 with highSinceEntry := currentPrice } else pos0
    let s1 := { s with position := some pos }
    if cfg.tp2Pct > 0 ∧ pnlPct ≥ cfg.tp2Pct then
      (some { reason := .tp2, pnlPct := pnlPct, barsHeld := barsHeld }, s1)
    else if pnlPct ≥ cfg.tp1Pct then
      if cfg.trailPct > 0 then
        let drawdownFromHigh := (pos.highSinceEntry - currentPrice) / pos.highSinceEntry
        if drawdownFromHigh ≥ cfg.trailPct then
          (some { reason := .trail, pnlPct := pnlPct, barsHeld := barsHeld }, s1)
        else (none, s1)
      else (some { reason := .tp1, pnlPct := pnlPct, barsHeld := barsHeld }, s1)
    else if pnlPct ≤ -cfg.slPct then
      (some { reason := .sl, pnlPct := pnlPct, barsHeld := barsHeld }, s1)
    else if barsHeld ≥ (cfg.maxBarsInPos : ℤ) then
      (some { reason := .timeout, pnlPct := pnlPct, barsHeld := barsHeld }, s1)
    else (none, s1)

/-- The record `closePosition` returns. -/
structure CloseResult where
  pnlPct : ℚ
  pnlNet : ℚ
deriving DecidableEq, Repr

/-- `Strategy.closePosition` (lines 284–314).  With no open position the
source throws before mutating anything, so the error branch returns the
input state unchanged.  The `reason` argument is only logged. -/
def closePosition (cfg : Config) (s : SState) (exitPrice : ℚ)
    (reason : ExitReason) : Except String CloseResult × SState :=
  match s.position with
  | none => (.error "No position to close", s)
  | some pos =>
    let pnlPct := (exitPrice - pos.entryPrice) / pos.entryPrice
    let feePct : ℚ := 4/10000
    let pnlNet := pnlPct - feePct
    let equity := s.equity * (1 + pnlNet)
    let peakEquity := if equity > s.peakEquity then equity else s.peakEquity
    let dd := (peakEquity - equity) / peakEquity
    let maxDrawdown := if dd > s.maxDrawdown then dd else s.maxDrawdown
    (.ok { pnlPct := pnlPct, pnlNet := pnlNet },
     { s with equity := equity, peakEquity := peakEquity, maxDrawdown := maxDrawdown,
              totalTrades := s.totalTrades + 1,
              totalWins := if pnlNet > 0 then s.totalWins + 1 else s.totalWins,
              totalPnlPct := s.totalPnlPct + pnlNet,
              position := none,
              cooldownRemaining := cfg.cooldownBars })

/-- Fold a bar list into a strategy state through `addBar`. -/
def stateFromBars (cfg : Config) (bs : List Bar) : SState :=
  bs.foldl (addBar cfg) initState

/-- The state after feeding the first `n` bars of the stream `f`. -/
def stateUpTo (cfg : Config) (f : ℕ → Bar) (n : ℕ) : SState :=
  stateFromBars cfg ((List.range n).map f)

/-- The `i`-th accepted (post-sanitization) bar of the stream `f`. -/
def storedBar (cfg : Config) (f : ℕ → Bar) (i : ℕ) : Bar :=
  (stateUpTo cfg f (i + 1)).bars.getD i default

/-- The fast EMA series of the stream `f`, indexed by bar. -/
def emaFastSeq (cfg : Config) (f : ℕ → Bar) (i : ℕ) : ℚ :=
  (stateUpTo cfg f (i + 1)).emaFastArr.getD i 0

/-- The slow EMA series of the stream `f`, indexed by bar. -/
def emaSlowSeq (cfg : Config) (f : ℕ → Bar) (i : ℕ) : ℚ :=
  (stateUpTo cfg f (i + 1)).emaSlowArr.getD i 0

/-- The ATR series of the stream `f`, indexed by bar. -/
def atrSeq (cfg : Config) (f : ℕ → Bar) (i : ℕ) : ℚ :=
  (stateUpTo cfg f (i + 1)).atrArr.getD i 0

/-- The true range at index `i` of a stored bar list, as the spec states
it: `tr[0] = high - low`, and for `i ≥ 1`
`tr[i] = max(high - low, |high - prevClose|, |low - prevClose|)`. -/
def trAt (bs : List Bar) : ℕ → ℚ
  | 0 => (bs.getD 0 default).h - (bs.getD 0 default).l
  | i + 1 => trueRange (bs.getD i default) (bs.getD (i + 1) default)

/-- The true-range series of the stream `f`, over the accepted bars. -/
def trSeq (cfg : Config) (f : ℕ → Bar) : ℕ → ℚ
  | 0 => (storedBar cfg f 0).h - (storedBar cfg f 0).l
  | j + 1 => trueRange (storedBar cfg f j) (storedBar cfg f (j + 1))

/-- A constant price stream (every bar has OHLC 1), used by the
convergence witness. -/
def constBar (i : ℕ) : Bar := ⟨(i : ℤ), 1, 1, 1, 1⟩

/-- Two concrete bars used by the ATR-series witness: true ranges 8 and
max(5, |8−5|, |3−5|) = 5, so the warmup ATR at index 1 is 13/2. -/
def barsC6 : List Bar := [⟨0, 0, 10, 2, 5⟩, ⟨1, 0, 8, 3, 6⟩]

/-- The exit decision ladder exactly as the spec words it, over the
claim-level quantities: gross pnl fraction, the post-update high
watermark, and the bars-held count.  Used to state the refinement in
claim C2. -/
def specExitReason (cfg : Config) (entryPrice high : ℚ) (barsHeld : ℤ) (p : ℚ) :
    Option ExitReason :=
  let pnlPct := (p - entryPrice) / entryPrice
  if cfg.tp2Pct > 0 ∧ pnlPct ≥ cfg.tp2Pct then some .tp2
  else if pnlPct ≥ cfg.tp1Pct then
    if cfg.trailPct > 0 then
      if (high - p) / high ≥ cfg.trailPct then some .trail else none
    else some .tp1
  else if pnlPct ≤ -cfg.slPct then some .sl
  else if barsHeld ≥ (cfg.maxBarsInPos : ℤ) then some .timeout
  else none

/-- States reachable from a fresh `Strategy` instance through the
mutating operations of the class (`checkEntry` and `getIndicators` and
`getState` are pure and do not appear). -/
inductive Reachable (cfg : Config) : SState → Prop where
  | init : Reachable cfg initState
  | stepAddBar {s : SState} (b : Bar) :
      Reachable cfg s → Reachable cfg (addBar cfg s b)
  | stepOpen {s : SState} (e q u : ℚ) (ref : Option String) (now : ℤ) :
      Reachable cfg s → Reachable cfg (openPosition s e q u ref now)
  | stepCheckExit {s : SState} (p : ℚ) :
      Reachable cfg s → Reachable cfg (checkExit cfg s p).2
  | stepClose {s : SState} (p : ℚ) (r : ExitReason) :
      Reachable cfg s → Reachable cfg (closePosition cfg s p r).2

/-! ### Concrete fixtures used by counterexamples and witnesses -/

/-- Default configuration with the trailing stop of the spec examples. -/
def cfgTrail : Config := { defaultConfig with trailPct := 3/100 }

/-- A position opened at price 100, high watermark still 100. -/
def posEntry100 : Position :=
  { entryPrice := 100, entryBar := 0, entryTime := 0, highSinceEntry := 100,
    tokenAmount := 1, usdcSpent := 100, txSignature := none }

/-- A one-bar state holding `posEntry100`. -/
def sEntry100 : SState :=
  { initState with
    bars := [⟨0, 100, 100, 100, 100⟩], emaFastArr := [100],
    emaSlowArr := [100], atrArr := [1], position := some posEntry100 }

/-- A state with one bar of close 100 and no position. -/
def sPrev100 : SState :=
  { initState with
    bars := [⟨0, 100, 100, 100, 100⟩], emaFastArr := [100],
    emaSlowArr := [100], atrArr := [0] }

/-- A position opened at price 1. -/
def posEntry1 : Position :=
  { entryPrice := 1, entryBar := 0, entryTime := 0, highSinceEntry := 1,
    tokenAmount := 1, usdcSpent := 1, txSignature := none }

/-- A fresh state holding `posEntry1`. -/
def sEntry1 : SState := { initState with position := some posEntry1 }

/-- A short-warmup configuration (warmup = 5 bars) used by entry-signal
witnesses. -/
def cfgShort : Config := { defaultConfig with emaSlowLen := 0, atrLen := 0 }

/-- A flat 5-bar state whose indicators satisfy every entry gate of
`cfgShort`. -/
def sFlat5 : SState :=
  { initState with
    bars := List.replicate 5 ⟨0, 100, 101, 99, 100⟩,
    emaFastArr := List.replicate 5 100,
    emaSlowArr := List.replicate 5 90,
    atrArr := List.replicate 5 2 }

/-- The position built by `openPosition` on a fresh instance. -/
def posInit1 : Position :=
  { entryPrice := 1, entryBar := -1, entryTime := 0, highSinceEntry := 1,
    tokenAmount := 2, usdcSpent := 3, txSignature := none }

/-- The state after the first scenario close of claim C4 (net +10%). -/
def sClose1 : SState := (closePosition defaultConfig sEntry1 (11004/10000) .tp1).2

/-- The state after the second scenario close of claim C4 (net −5%). -/
def sClose2 : SState :=
  (closePosition defaultConfig (openPosition sClose1 1 1 1 none 0) (9504/10000) .sl).2

/-- The state after the third scenario close of claim C4 (net +2%). -/
def sClose3 : SState :=
  (closePosition defaultConfig (openPosition sClose2 1 1 1 none 0) (10204/10000) .tp1).2

/-! ### Helper lemmas -/

/-- The source pattern `x > a ? x : a` is `max a x`. -/
theorem ite_gt_eq_max (a x : ℚ) : (if x > a then x else a) = max a x := by
  rcases le_or_lt x a with hle | hlt
  · rw [if_neg (not_lt.mpr hle), max_eq_left hle]
  · rw [if_pos hlt, max_eq_right hlt.le]

/-- `checkExit` on an open position always returns the state whose only
change is the high watermark raised to `max high p`. -/
theorem checkExit_state (cfg : Config) (s : SState) (pos : Position) (p : ℚ)
    (h : s.position = some pos) :
    (checkExit cfg s p).2 =
      { s with position := some { pos with highSinceEntry := max pos.highSinceEntry p } } := by
  have hpos : (if p > pos.highSinceEntry
      then { pos with highSinceEntry := p } else pos) =
      { pos with highSinceEntry := max pos.highSinceEntry p } := by
    rcases le_or_lt p pos.highSinceEntry with hle | hlt
    · rw [if_neg (not_lt.mpr hle), max_eq_left hle]
    · rw [if_pos hlt, max_eq_right hlt.le]
  unfold checkExit
  rw [h]
  simp only [hpos]
  split_ifs <;> rfl

/-- `addBar` never touches the position slot. -/
theorem addBar_position (cfg : Config) (s : SState) (b : Bar) :
    (addBar cfg s b).position = s.position := by
  unfold addBar
  split_ifs <;> rfl

/-- `closePosition` on an open position clears the slot. -/
theorem closePosition_position (cfg : Config) (s : SState) (p : ℚ) (r : ExitReason) :
    (closePosition cfg s p r).2.position = none ∨ (closePosition cfg s p r).2 = s := by
  unfold closePosition
  cases s.position with
  | none => exact Or.inr rfl
  | some pos => exact Or.inl rfl

/-- In every reachable state, an open position's high watermark is at
least its entry price. -/
theorem reachable_high_ge_entry (cfg : Config) (s : SState)
    (hr : Reachable cfg s) :
    ∀ pos, s.position = some pos → pos.entryPrice ≤ pos.highSinceEntry := by
  induction hr with
  | init => intro pos h; simp [initState] at h
  | stepAddBar b _ ih =>
    intro pos h
    rw [addBar_position] at h
    exact ih pos h
  | stepOpen e q u ref now _ _ =>
    intro pos h
    unfold openPosition at h
    simp only [Option.some.injEq] at h
    subst h
    exact le_refl _
  | stepCheckExit p hs ih =>
    intro pos h
    rename_i s'
    cases hp : s'.position with
    | none =>
      unfold checkExit at h
      rw [hp] at h
      exact ih pos (by simpa using h)
    | some pos0 =>
      rw [checkExit_state cfg s' pos0 p hp] at h
      simp only [Option.some.injEq] at h
      subst h
      exact le_trans (ih pos0 hp) (le_max_left _ _)
  | stepClose p r hs ih =>
    intro pos h
    rename_i s'
    cases hp : s'.position with
    | none =>
      unfold closePosition at h
      rw [hp] at h
      exact ih pos h
    | some pos0 =>
      unfold closePosition at h
      rw [hp] at h
      simp at h

/-! ### Claim theorems -/

/-- Claim C10: calling `closePosition` with no open position throws
(`Except.error`) and leaves the whole strategy state unchanged — the
returned state is exactly the input state, so bars, the three indicator
series, position, cooldown, equity, peak equity, max drawdown and all
trade counters keep their prior values. -/
theorem c10_close_no_position (cfg : Config) (s : SState) (p : ℚ) (r : ExitReason)
    (h : s.position = none) :
    closePosition cfg s p r = (.error "No position to close", s) := by
  unfold closePosition
  rw [h]

/-- Witness for C10 at a concrete no-position state. -/
theorem c10_close_no_position_witness :
    closePosition defaultConfig initState 5 .sl = (.error "No position to close", initState) :=
  c10_close_no_position defaultConfig initState 5 .sl rfl

/-- Claim C1 counterexample: the claim says `openPosition` fails with an
InvalidState error and does not replace an existing position.  In the
source (`strategy.ts` lines 219–231) there is no such check: with
`posEntry1` (entry price 1) open, `openPosition` returns normally and the
position afterwards is the new one (entry price 7). -/
theorem c1_counterexample :
    sEntry1.position.map Position.entryPrice = some 1 ∧
    (openPosition sEntry1 7 8 9 none 0).position.map Position.entryPrice = some 7 := by
  exact ⟨rfl, rfl⟩

/-- Claim C1 (amended): `openPosition` performs no InvalidState check.
Called while a position is open it returns normally and silently replaces
the existing position with the freshly built one (entry fields from the
arguments, `highSinceEntry` seeded to the entry price, `entryBar` the
current last bar index); every other state field is unchanged. -/
theorem c1_open_replaces (s : SState) (pos : Position) (e q u : ℚ)
    (ref : Option String) (now : ℤ) (h : s.position = some pos) :
    (openPosition s e q u ref now).position =
      some { entryPrice := e, entryBar := (s.bars.length : ℤ) - 1,
             entryTime := (s.bars.getLast?.map Bar.t).getD now,
             highSinceEntry := e, tokenAmount := q, usdcSpent := u,
             txSignature := ref } ∧
    (openPosition s e q u ref now).bars = s.bars ∧
    (openPosition s e q u ref now).equity = s.equity ∧
    (openPosition s e q u ref now).cooldownRemaining = s.cooldownRemaining := by
  exact ⟨rfl, rfl, rfl, rfl⟩

/-- Witness for C1's amended theorem at the concrete state of the
counterexample. -/
theorem c1_open_replaces_witness :
    (openPosition sEntry1 7 8 9 none 0).position =
      some { entryPrice := 7, entryBar := (sEntry1.bars.length : ℤ) - 1,
             entryTime := (sEntry1.bars.getLast?.map Bar.t).getD 0,
             highSinceEntry := 7, tokenAmount := 8, usdcSpent := 9,
             txSignature := none } ∧
    (openPosition sEntry1 7 8 9 none 0).bars = sEntry1.bars ∧
    (openPosition sEntry1 7 8 9 none 0).equity = sEntry1.equity ∧
    (openPosition sEntry1 7 8 9 none 0).cooldownRemaining = sEntry1.cooldownRemaining :=
  c1_open_replaces sEntry1 posEntry1 7 8 9 none 0 rfl

/-- Claim C8: `closePosition` arms the cooldown to the configured
`COOLDOWN_BARS`; each `addBar` decrements a positive counter by exactly
one and leaves a zero counter at zero (so it never goes below zero);
`checkEntry` refuses every entry while the counter is nonzero; and with
`COOLDOWN_BARS = 3` three `addBar` calls after a close step the counter
3 → 2 → 1 → 0. -/
theorem c8_cooldown :
    (∀ (cfg : Config) (s : SState) (p : ℚ) (r : ExitReason) (pos : Position),
      s.position = some pos →
      (closePosition cfg s p r).2.cooldownRemaining = cfg.cooldownBars) ∧
    (∀ (cfg : Config) (s : SState) (b : Bar), 0 < s.cooldownRemaining →
      (addBar cfg s b).cooldownRemaining = s.cooldownRemaining - 1) ∧
    (∀ (cfg : Config) (s : SState) (b : Bar), s.cooldownRemaining = 0 →
      (addBar cfg s b).cooldownRemaining = 0) ∧
    (∀ (cfg : Config) (s : SState) (p : ℚ), s.cooldownRemaining ≠ 0 →
      checkEntry cfg s p = none) ∧
    ((closePosition defaultConfig sEntry1 1 .sl).2.cooldownRemaining = 3 ∧
      (addBar defaultConfig (closePosition defaultConfig sEntry1 1 .sl).2
        ⟨1, 1, 1, 1, 1⟩).cooldownRemaining = 2 ∧
      (addBar defaultConfig (addBar defaultConfig
        (closePosition defaultConfig sEntry1 1 .sl).2 ⟨1, 1, 1, 1, 1⟩)
        ⟨2, 1, 1, 1, 1⟩).cooldownRemaining = 1 ∧
      (addBar defaultConfig (addBar defaultConfig (addBar defaultConfig
        (closePosition defaultConfig sEntry1 1 .sl).2 ⟨1, 1, 1, 1, 1⟩)
        ⟨2, 1, 1, 1, 1⟩) ⟨3, 1, 1, 1, 1⟩).cooldownRemaining = 0) := by
  refine ⟨?_, ?_, ?_, ?_, ?_⟩
  · intro cfg s p r pos h
    unfold closePosition
    rw [h]
  · intro cfg s b h
    unfold addBar
    rw [if_pos h]
  · intro cfg s b h
    unfold addBar
    rw [h]
    rfl
  · intro cfg s p h
    have hpos : 0 < s.cooldownRemaining := Nat.pos_of_ne_zero h
    unfold checkEntry
    by_cases h1 : (getIndicators cfg s).ready = false
    · simp [h1]
    · by_cases h2 : s.position.isSome
      · simp [h1, h2]
      · simp [h1, h2, hpos]
  · exact ⟨by decide, by decide, by decide, by decide⟩

/-- Witness for C8, discharging each hypothesis at concrete inputs. -/
theorem c8_cooldown_witness :
    (closePosition defaultConfig sEntry1 1 .sl).2.cooldownRemaining = 3 ∧
    (addBar defaultConfig sPrev100 ⟨1, 100, 100, 100, 100⟩).cooldownRemaining = 0 ∧
    checkEntry defaultConfig
      { sPrev100 with cooldownRemaining := 2 } 98 = none := by
  refine ⟨c8_cooldown.1 defaultConfig sEntry1 1 .sl posEntry1 rfl, ?_, ?_⟩
  · exact c8_cooldown.2.2.1 defaultConfig sPrev100 ⟨1, 100, 100, 100, 100⟩ rfl
  · exact c8_cooldown.2.2.2.1 defaultConfig
      { sPrev100 with cooldownRemaining := 2 } 98 (by decide)

/-- Claim C3: `checkEntry` returns a signal exactly when indicators are
ready, no position is open, the cooldown is zero, the slope clears the
threshold, the price is at or below the buy-zone top, and the ATR is
positive; and a returned signal's `zoneDepth` is
`(buyZoneTop - price) / atr`, which is non-negative. -/
theorem c3_check_entry_iff (cfg : Config) (s : SState) (p : ℚ) :
    ((checkEntry cfg s p).isSome = true ↔
      ((getIndicators cfg s).ready = true ∧ s.position = none ∧
        s.cooldownRemaining = 0 ∧
        (getIndicators cfg s).slope ≥ cfg.minEmaSlope ∧
        p ≤ (getIndicators cfg s).buyZoneTop ∧
        (getIndicators cfg s).atr > 0)) ∧
    (∀ sig, checkEntry cfg s p = some sig →
      sig.zoneDepth = ((getIndicators cfg s).buyZoneTop - p) / (getIndicators cfg s).atr ∧
      0 ≤ sig.zoneDepth) := by
  by_cases h1 : (getIndicators cfg s).ready = false
  · have hL : checkEntry cfg s p = none := by
      simp only [checkEntry]
      rw [if_pos h1]
    rw [hL]
    refine ⟨?_, by simp⟩
    simp only [Option.isSome_none]
    simp
    intro hready
    rw [hready] at h1
    simp at h1
  · by_cases h2 : s.position.isSome = true
    · have hL : checkEntry cfg s p = none := by
        simp only [checkEntry]
        rw [if_neg h1, if_pos h2]
      rw [hL]
      refine ⟨?_, by simp⟩
      simp
      intro _ hpos
      rw [hpos] at h2
      simp at h2
    · by_cases h3 : 0 < s.cooldownRemaining
      · have hL : checkEntry cfg s p = none := by
          simp only [checkEntry]
          rw [if_neg h1, if_neg h2, if_pos h3]
        rw [hL]
        refine ⟨?_, by simp⟩
        simp
        intro _ _ hcool
        exact absurd hcool (Nat.pos_iff_ne_zero.mp h3)
      · by_cases h4 : (getIndicators cfg s).slope < cfg.minEmaSlope
        · have hL : checkEntry cfg s p = none := by
            simp only [checkEntry]
            rw [if_neg h1, if_neg h2, if_neg h3, if_pos h4]
          rw [hL]
          refine ⟨?_, by simp⟩
          simp
          intro _ _ _ hslope
          exact absurd hslope (not_le.mpr h4)
        · by_cases h5 : p > (getIndicators cfg s).buyZoneTop
          · have hL : checkEntry cfg s p = none := by
              simp only [checkEntry]
              rw [if_neg h1, if_neg h2, if_neg h3, if_neg h4, if_pos h5]
            rw [hL]
            refine ⟨?_, by simp⟩
            simp
            intro _ _ _ _ hple
            exact absurd hple (not_le.mpr h5)
          · by_cases h6 : (getIndicators cfg s).atr ≤ 0
            · have hL : checkEntry cfg s p = none := by
                simp only [checkEntry]
                rw [if_neg h1, if_neg h2, if_neg h3, if_neg h4, if_neg h5, if_pos h6]
              rw [hL]
              refine ⟨?_, by simp⟩
              simp
              intro _ _ _ _ _
              exact h6
            · have hL : checkEntry cfg s p =
                  some { price := p, emaFast := (getIndicators cfg s).emaFast,
                         emaSlow := (getIndicators cfg s).emaSlow,
                         atr := (getIndicators cfg s).atr,
                         slope := (getIndicators cfg s).slope,
                         zoneDepth := ((getIndicators cfg s).buyZoneTop - p) /
                           (getIndicators cfg s).atr } := by
                simp only [checkEntry]
                rw [if_neg h1, if_neg h2, if_neg h3, if_neg h4, if_neg h5, if_neg h6]
              have hready : (getIndicators cfg s).ready = true := by
                revert h1
                cases (getIndicators cfg s).ready <;> simp
              have hpos : s.position = none := Option.not_isSome_iff_eq_none.mp h2
              have hcool : s.cooldownRemaining = 0 := Nat.le_zero.mp (not_lt.mp h3)
              have hple : p ≤ (getIndicators cfg s).buyZoneTop := not_lt.mp h5
              have hatr : 0 < (getIndicators cfg s).atr := not_le.mp h6
              constructor
              · rw [hL]
                simp only [Option.isSome_some, true_iff]
                exact ⟨hready, hpos, hcool, not_lt.mp h4, hple, hatr⟩
              · intro sig hsig
                rw [hL] at hsig
                simp only [Option.some.injEq] at hsig
                subst hsig
                exact ⟨rfl, div_nonneg (sub_nonneg.mpr hple) hatr.le⟩

/-- Witness for C3 at a concrete state where every gate passes. -/
theorem c3_check_entry_iff_witness :
    (checkEntry cfgShort sFlat5 98).isSome = true ∧
    ∀ sig, checkEntry cfgShort sFlat5 98 = some sig → 0 ≤ sig.zoneDepth := by
  constructor
  · exact (c3_check_entry_iff cfgShort sFlat5 98).1.mpr
      ⟨by decide, rfl, rfl, by norm_num [getIndicators, cfgShort, sFlat5, defaultConfig],
        by norm_num [getIndicators, cfgShort, sFlat5, defaultConfig],
        by norm_num [getIndicators, cfgShort, sFlat5, defaultConfig]⟩
  · intro sig hsig
    exact ((c3_check_entry_iff cfgShort sFlat5 98).2 sig hsig).2

/-- Claim C7: `checkExit` on an open position always raises the high
watermark to `max(highSinceEntry, currentPrice)` (whether or not a signal
fires) and changes nothing else; `addBar` never touches the position;
`openPosition` seeds the watermark at the entry price; `closePosition`
destroys the position; and in every reachable state an open position's
watermark is at least its entry price (monotone non-decreasing over the
position's lifetime, since the only mutation is the `max` update). -/
theorem c7_high_watermark (cfg : Config) :
    (∀ (s : SState) (pos : Position) (p : ℚ), s.position = some pos →
      (checkExit cfg s p).2 =
        { s with position := some { pos with highSinceEntry := max pos.highSinceEntry p } }) ∧
    (∀ (s : SState) (b : Bar), (addBar cfg s b).position = s.position) ∧
    (∀ (s : SState) (e q u : ℚ) (ref : Option String) (now : ℤ),
      (openPosition s e q u ref now).position.map Position.highSinceEntry = some e) ∧
    (∀ (s : SState) (pos : Position) (p : ℚ) (r : ExitReason), s.position = some pos →
      (closePosition cfg s p r).2.position = none) ∧
    (∀ s : SState, Reachable cfg s → ∀ pos, s.position = some pos →
      pos.entryPrice ≤ pos.highSinceEntry) := by
  refine ⟨?_, ?_, ?_, ?_, ?_⟩
  · intro s pos p h
    exact checkExit_state cfg s pos p h
  · intro s b
    exact addBar_position cfg s b
  · intro s e q u ref now
    rfl
  · intro s pos p r h
    unfold closePosition
    rw [h]
  · intro s hr pos h
    exact reachable_high_ge_entry cfg s hr pos h

/-- Witness for C7 at concrete states. -/
theorem c7_high_watermark_witness :
    (checkExit defaultConfig sEntry100 109).2 =
      { sEntry100 with
        position := some { posEntry100 with highSinceEntry := max 100 109 } } ∧
    (addBar defaultConfig sPrev100 ⟨1, 100, 100, 100, 100⟩).position = sPrev100.position ∧
    (openPosition initState 1 2 3 none 0).position.map Position.highSinceEntry = some 1 ∧
    (closePosition defaultConfig sEntry1 1 .sl).2.position = none ∧
    posInit1.entryPrice ≤ posInit1.highSinceEntry := by
  have h := c7_high_watermark defaultConfig
  refine ⟨h.1 sEntry100 posEntry100 109 rfl, h.2.1 sPrev100 ⟨1, 100, 100, 100, 100⟩,
    h.2.2.1 initState 1 2 3 none 0, h.2.2.2.1 sEntry1 posEntry1 1 .sl rfl, ?_⟩
  exact h.2.2.2.2 (openPosition initState 1 2 3 none 0)
    (Reachable.stepOpen 1 2 3 none 0 Reachable.init) posInit1 (by decide)

/-- Claim C4: `closePosition` on an open position returns
`pnlPct = (exit - entry)/entry` and `pnlNet = pnlPct - 0.0004`,
multiplies equity by `1 + pnlNet`, raises the equity peak and the max
drawdown (computed against the new peak), increments the trade counter,
counts a win iff `pnlNet > 0`, accumulates `pnlNet` into the cumulative
pnl, clears the position, and arms the cooldown. -/
theorem c4_close_position (cfg : Config) (s : SState) (pos : Position) (p : ℚ)
    (r : ExitReason) (h : s.position = some pos) :
    closePosition cfg s p r =
      (let pnlPct := (p - pos.entryPrice) / pos.entryPrice
       let pnlNet := pnlPct - 4/10000
       let equity := s.equity * (1 + pnlNet)
       let peak := max s.peakEquity equity
       (Except.ok { pnlPct := pnlPct, pnlNet := pnlNet },
        { s with equity := equity, peakEquity := peak,
                 maxDrawdown := max s.maxDrawdown ((peak - equity) / peak),
                 totalTrades := s.totalTrades + 1,
                 totalWins := if pnlNet > 0 then s.totalWins + 1 else s.totalWins,
                 totalPnlPct := s.totalPnlPct + pnlNet,
                 position := none,
                 cooldownRemaining := cfg.cooldownBars })) := by
  simp only [closePosition, h, ite_gt_eq_max]

/-- Witness for C4: the three-close scenario of the claim, with exact
rational arithmetic (entry price 1; exits 1.1004, 0.9504, 1.0204 give net
returns +10%, −5%, +2%). -/
theorem c4_close_position_witness :
    (closePosition defaultConfig sEntry1 (11004/10000) .tp1).1 =
      Except.ok { pnlPct := 1004/10000, pnlNet := 1/10 } ∧
    sClose1.equity = 11/10 ∧ sClose1.peakEquity = 11/10 ∧ sClose1.maxDrawdown = 0 ∧
    sClose2.equity = 209/200 ∧ sClose2.peakEquity = 11/10 ∧ sClose2.maxDrawdown = 1/20 ∧
    sClose3.equity = 10659/10000 ∧
    sClose1.totalTrades = 1 ∧ sClose1.totalWins = 1 ∧
    sClose2.totalWins = 1 ∧ sClose3.totalPnlPct = 7/100 := by
  have h1 := c4_close_position defaultConfig sEntry1 posEntry1 (11004/10000) .tp1 rfl
  have e1 : (closePosition defaultConfig sEntry1 (11004/10000) .tp1).1 =
      Except.ok { pnlPct := 1004/10000, pnlNet := 1/10 } := by
    rw [h1]
    norm_num [sEntry1, posEntry1, initState]
  refine ⟨e1, ?_, ?_, ?_, ?_, ?_, ?_, ?_, ?_, ?_, ?_, ?_⟩ <;>
    norm_num [sClose3, sClose2, sClose1, closePosition, openPosition,
      sEntry1, posEntry1, defaultConfig, initState]

/-- Claim C2 counterexample: the claim asserts the price path
100 → 109 → 105.6 exits with reason "trail" at 105.6.  On the code it
does not: at 105.6 the gross pnl is 5.6%, below `TP1_PCT = 8%`, so the
trail branch is never consulted and `checkExit` returns no signal (the
first call at 109 returns no signal and raises the watermark to 109, as
the claim's path requires). -/
theorem c2_counterexample :
    (checkExit cfgTrail sEntry100 109).1 = none ∧
    (checkExit cfgTrail sEntry100 109).2.position.map Position.highSinceEntry = some 109 ∧
    (checkExit cfgTrail (checkExit cfgTrail sEntry100 109).2 (528/5)).1 = none := by
  refine ⟨?_, ?_, ?_⟩ <;>
    norm_num [checkExit, cfgTrail, sEntry100, posEntry100, defaultConfig, initState]

/-- Claim C2 (amended): `checkExit` evaluates the exit ladder in strict
priority order, first match wins, exactly as `specExitReason` states it
over gross pnl, the post-update high watermark, and bars held; any
returned signal carries that pnl and bar count.  The concrete facts:
entry 100 with `SL_PCT = 0.04` exits "sl" at 96.0 but not at 96.01; with
`TP1_PCT = 0.08`, `TRAIL_PCT = 0.03` the path 100 → 109 → 107 gives no
exit at 107, the path 100 → 109 → 105.6 also gives no exit at 105.6
(pnl 5.6% is below TP1, so the trail rule is never reached), and the path
100 → 112 → 108.64 (pnl 8.64%, drawdown-from-high exactly 3%) exits
"trail". -/
theorem c2_check_exit_priority (cfg : Config) (s : SState) (pos : Position) (p : ℚ)
    (h : s.position = some pos) :
    ((checkExit cfg s p).1.map ExitSignal.reason =
      specExitReason cfg pos.entryPrice (max pos.highSinceEntry p)
        ((s.bars.length : ℤ) - 1 - pos.entryBar) p) ∧
    (∀ sig, (checkExit cfg s p).1 = some sig →
      sig.pnlPct = (p - pos.entryPrice) / pos.entryPrice ∧
      sig.barsHeld = (s.bars.length : ℤ) - 1 - pos.entryBar) ∧
    (checkExit cfgTrail sEntry100 96).1.map ExitSignal.reason = some ExitReason.sl ∧
    (checkExit cfgTrail sEntry100 (9601/100)).1 = none ∧
    (checkExit cfgTrail (checkExit cfgTrail sEntry100 109).2 107).1 = none ∧
    (checkExit cfgTrail (checkExit cfgTrail sEntry100 109).2 (528/5)).1 = none ∧
    (checkExit cfgTrail (checkExit cfgTrail sEntry100 112).2 (2716/25)).1.map
      ExitSignal.reason = some ExitReason.trail := by
  have hpos : (if p > pos.highSinceEntry
      then { pos with highSinceEntry := p } else pos) =
      { pos with highSinceEntry := max pos.highSinceEntry p } := by
    rcases le_or_lt p pos.highSinceEntry with hle | hlt
    · rw [if_neg (not_lt.mpr hle), max_eq_left hle]
    · rw [if_pos hlt, max_eq_right hlt.le]
  have hnum : ∀ g : Prop, ((checkExit cfgTrail sEntry100 96).1.map ExitSignal.reason =
      some ExitReason.sl ∧
    (checkExit cfgTrail sEntry100 (9601/100)).1 = none ∧
    (checkExit cfgTrail (checkExit cfgTrail sEntry100 109).2 107).1 = none ∧
    (checkExit cfgTrail (checkExit cfgTrail sEntry100 109).2 (528/5)).1 = none ∧
    (checkExit cfgTrail (checkExit cfgTrail sEntry100 112).2 (2716/25)).1.map
      ExitSignal.reason = some ExitReason.trail) := by
    intro g
    refine ⟨?_, ?_, ?_, ?_, ?_⟩ <;>
      norm_num [checkExit, cfgTrail, sEntry100, posEntry100, defaultConfig, initState]
  obtain ⟨e1, e2, e3, e4, e5⟩ := hnum True
  refine ⟨?_, ?_, e1, e2, e3, e4, e5⟩
  · simp only [checkExit, h, hpos, specExitReason]
    split_ifs <;> rfl
  · intro sig hsig
    simp only [checkExit, h, hpos] at hsig
    split_ifs at hsig
    all_goals
      first
        | (replace hsig := Option.some.inj hsig
           subst hsig
           exact ⟨rfl, rfl⟩)
        | (simp at hsig)

/-- Witness for C2 at the stop-loss boundary input. -/
theorem c2_check_exit_priority_witness :
    (checkExit cfgTrail sEntry100 96).1.map ExitSignal.reason =
      specExitReason cfgTrail posEntry100.entryPrice (max posEntry100.highSinceEntry 96)
        ((sEntry100.bars.length : ℤ) - 1 - posEntry100.entryBar) 96 ∧
    specExitReason cfgTrail posEntry100.entryPrice (max posEntry100.highSinceEntry 96)
      ((sEntry100.bars.length : ℤ) - 1 - posEntry100.entryBar) 96 = some ExitReason.sl :=
  ⟨(c2_check_exit_priority cfgTrail sEntry100 posEntry100 96 rfl).1,
    by norm_num [specExitReason, cfgTrail, defaultConfig, posEntry100, sEntry100, initState]⟩

/-- Claim C5 counterexample: the claim's clamp trigger includes a low
exceeding 3× the previous close, but the source (line 95) checks only
high, open and close against the upper bound.  With previous close 100, a
bar with low 350 (and high, open, close at 100) is appended unmodified,
even though the claim requires every field to be clamped into
`[33, 300]`, which 350 is not in. -/
theorem c5_counterexample :
    (addBar defaultConfig sPrev100 ⟨1, 100, 100, 350, 100⟩).bars =
      sPrev100.bars ++ [⟨1, 100, 100, 350, 100⟩] ∧
    ¬ ((350 : ℚ) ≤ 3 * 100) := by
  refine ⟨?_, by norm_num⟩
  norm_num [addBar, sanitizeBar, sPrev100, defaultConfig, initState]

/-- Claim C5 (amended): with a previous bar of close `prevClose`, a bar
whose high, open or close exceeds `3 × prevClose`, or whose low is below
`0.33 × prevClose` (the low is not checked against the upper bound), has
every OHLC field clamped into `[0.33 × prevClose, 3 × prevClose]` and is
still appended; any other bar is appended unmodified; in all cases the
bar list and the three indicator series grow by exactly one element.
Concretely, with previous close 100 a bar with high 400 and low 20 is
stored with high 300 and low 33. -/
theorem c5_spike_clamp (cfg : Config) (s : SState) (b : Bar) (prev : Bar)
    (h : s.bars.getLast? = some prev) :
    ((b.h > prev.c * 3 ∨ b.l < prev.c * (33/100) ∨ b.o > prev.c * 3 ∨ b.c > prev.c * 3) →
      (addBar cfg s b).bars = s.bars ++
        [{ t := b.t,
           o := clampQ b.o (prev.c * (33/100)) (prev.c * 3),
           h := clampQ b.h (prev.c * (33/100)) (prev.c * 3),
           l := clampQ b.l (prev.c * (33/100)) (prev.c * 3),
           c := clampQ b.c (prev.c * (33/100)) (prev.c * 3) }]) ∧
    (¬ (b.h > prev.c * 3 ∨ b.l < prev.c * (33/100) ∨ b.o > prev.c * 3 ∨ b.c > prev.c * 3) →
      (addBar cfg s b).bars = s.bars ++ [b]) ∧
    (0 ≤ prev.c → ∀ x : ℚ,
      prev.c * (33/100) ≤ clampQ x (prev.c * (33/100)) (prev.c * 3) ∧
      clampQ x (prev.c * (33/100)) (prev.c * 3) ≤ prev.c * 3) ∧
    ((addBar cfg s b).bars.length = s.bars.length + 1 ∧
     (addBar cfg s b).emaFastArr.length = s.emaFastArr.length + 1 ∧
     (addBar cfg s b).emaSlowArr.length = s.emaSlowArr.length + 1 ∧
     (addBar cfg s b).atrArr.length = s.atrArr.length + 1) ∧
    (addBar defaultConfig sPrev100 ⟨1, 100, 400, 20, 100⟩).bars =
      sPrev100.bars ++ [⟨1, 100, 300, 33, 100⟩] := by
  refine ⟨?_, ?_, ?_, ?_,
    by norm_num [addBar, sanitizeBar, clampQ, sPrev100, defaultConfig, initState]⟩
  · intro hc
    simp only [addBar, sanitizeBar, h]
    rw [if_pos hc]
  · intro hc
    simp only [addBar, sanitizeBar, h]
    rw [if_neg hc]
  · intro hprev x
    have hlohi : prev.c * (33/100) ≤ prev.c * 3 :=
      mul_le_mul_of_nonneg_left (by norm_num) hprev
    exact ⟨le_min (le_max_right _ _) hlohi, min_le_right _ _⟩
  · simp only [addBar]
    split_ifs <;> simp [List.length_append]

/-- Witness for C5 at the claim's concrete spike bar. -/
theorem c5_spike_clamp_witness :
    ((400 : ℚ) > 100 * 3 ∨ (20 : ℚ) < 100 * (33/100) ∨
      (100 : ℚ) > 100 * 3 ∨ (100 : ℚ) > 100 * 3) ∧
    (addBar defaultConfig sPrev100 ⟨1, 100, 400, 20, 100⟩).bars =
      sPrev100.bars ++
        [{ t := 1, o := clampQ 100 (100 * (33/100)) (100 * 3),
           h := clampQ 400 (100 * (33/100)) (100 * 3),
           l := clampQ 20 (100 * (33/100)) (100 * 3),
           c := clampQ 100 (100 * (33/100)) (100 * 3) }] := by
  constructor
  · norm_num
  · exact (c5_spike_clamp defaultConfig sPrev100 ⟨1, 100, 400, 20, 100⟩
      ⟨0, 100, 100, 100, 100⟩ rfl).1 (by norm_num)

/-! ### List machinery for the indicator-series characterizations -/

theorem trAux_snoc (p : Bar) (xs : List Bar) (y : Bar) :
    trAux p (xs ++ [y]) = trAux p xs ++ [trueRange ((p :: xs).getD xs.length default) y] := by
  induction xs generalizing p with
  | nil => rfl
  | cons x rest ih =>
    simp only [List.cons_append, trAux, List.append_eq]
    rw [ih x]
    simp [List.getD_cons_succ]

theorem trList_snoc (bs : List Bar) (y : Bar) (h : bs ≠ []) :
    trList (bs ++ [y]) = trList bs ++ [trueRange (bs.getD (bs.length - 1) default) y] := by
  cases bs with
  | nil => exact absurd rfl h
  | cons b0 rest =>
    simp only [List.cons_append, trList, trAux_snoc b0 rest y]
    rfl

theorem trAt_append (bs ys : List Bar) (i : ℕ) (h : i < bs.length) :
    trAt (bs ++ ys) i = trAt bs i := by
  cases i with
  | zero =>
    simp only [trAt, List.getD_append _ _ _ _ h]
  | succ j =>
    have hj : j < bs.length := Nat.lt_of_succ_lt h
    simp only [trAt, List.getD_append _ _ _ _ h, List.getD_append _ _ _ _ hj]

theorem trAt_snoc_last (bs : List Bar) (y : Bar) (h : bs ≠ []) :
    trAt (bs ++ [y]) bs.length = trueRange (bs.getD (bs.length - 1) default) y := by
  obtain ⟨m, hm⟩ : ∃ m, bs.length = m + 1 :=
    ⟨bs.length - 1, (Nat.succ_pred_eq_of_pos (List.length_pos.mpr h)).symm⟩
  rw [hm]
  have h1 : m < bs.length := by omega
  have h2 : (bs ++ [y]).getD (m + 1) default = y := by
    rw [List.getD_append_right _ _ _ _ (by omega)]
    simp [hm]
  simp only [trAt, List.getD_append _ _ _ _ h1, h2, hm]
  simp

theorem trList_sum (bs : List Bar) :
    (trList bs).sum = ∑ j ∈ Finset.range bs.length, trAt bs j := by
  induction bs using List.reverseRecOn with
  | nil => rfl
  | append_singleton bs y ih =>
    rcases eq_or_ne bs [] with hnil | hne
    · subst hnil
      simp [trList, trAux, trAt, trueRange]
    · rw [trList_snoc bs y hne, List.sum_append, ih, List.length_append,
        List.length_singleton, Finset.sum_range_succ, trAt_snoc_last bs y hne]
      simp only [List.sum_cons, List.sum_nil, add_zero]
      congr 1
      exact Finset.sum_congr rfl fun j hj =>
        (trAt_append bs [y] j (Finset.mem_range.mp hj)).symm

/-! ### `addBar` structure lemmas -/

theorem addBar_bars (cfg : Config) (s : SState) (b : Bar) :
    (addBar cfg s b).bars = s.bars ++ [sanitizeBar s.bars.getLast? b] := rfl

theorem addBar_lengths (cfg : Config) (s : SState) (b : Bar) :
    (addBar cfg s b).bars.length = s.bars.length + 1 ∧
    (addBar cfg s b).emaFastArr.length = s.emaFastArr.length + 1 ∧
    (addBar cfg s b).emaSlowArr.length = s.emaSlowArr.length + 1 ∧
    (addBar cfg s b).atrArr.length = s.atrArr.length + 1 := by
  simp only [addBar]
  split_ifs <;> simp

theorem addBar_emaFastArr_getD (cfg : Config) (s : SState) (b : Bar) (i : ℕ)
    (h : i < s.emaFastArr.length) :
    (addBar cfg s b).emaFastArr.getD i 0 = s.emaFastArr.getD i 0 := by
  simp only [addBar]
  split_ifs <;> exact List.getD_append _ _ _ _ h

theorem addBar_emaSlowArr_getD (cfg : Config) (s : SState) (b : Bar) (i : ℕ)
    (h : i < s.emaSlowArr.length) :
    (addBar cfg s b).emaSlowArr.getD i 0 = s.emaSlowArr.getD i 0 := by
  simp only [addBar]
  split_ifs <;> exact List.getD_append _ _ _ _ h

theorem addBar_atrArr_getD (cfg : Config) (s : SState) (b : Bar) (i : ℕ)
    (h : i < s.atrArr.length) :
    (addBar cfg s b).atrArr.getD i 0 = s.atrArr.getD i 0 := by
  simp only [addBar]
  split_ifs <;> exact List.getD_append _ _ _ _ h

theorem addBar_bars_getD (cfg : Config) (s : SState) (b : Bar) (i : ℕ)
    (h : i < s.bars.length) :
    (addBar cfg s b).bars.getD i default = s.bars.getD i default := by
  rw [addBar_bars]
  exact List.getD_append _ _ _ _ h

theorem stateFromBars_snoc (cfg : Config) (bs : List Bar) (b : Bar) :
    stateFromBars cfg (bs ++ [b]) = addBar cfg (stateFromBars cfg bs) b := by
  simp [stateFromBars, List.foldl_append]

theorem stateFromBars_lengths (cfg : Config) (bs : List Bar) :
    (stateFromBars cfg bs).bars.length = bs.length ∧
    (stateFromBars cfg bs).emaFastArr.length = bs.length ∧
    (stateFromBars cfg bs).emaSlowArr.length = bs.length ∧
    (stateFromBars cfg bs).atrArr.length = bs.length := by
  induction bs using List.reverseRecOn with
  | nil => exact ⟨rfl, rfl, rfl, rfl⟩
  | append_singleton bs b ih =>
    rw [stateFromBars_snoc]
    obtain ⟨h1, h2, h3, h4⟩ := addBar_lengths cfg (stateFromBars cfg bs) b
    rw [h1, h2, h3, h4, ih.1, ih.2.1, ih.2.2.1, ih.2.2.2, List.length_append]
    exact ⟨rfl, rfl, rfl, rfl⟩

theorem addBar_emaFastArr_last (cfg : Config) (s : SState) (b : Bar)
    (hlen : s.emaFastArr.length = s.bars.length) :
    (addBar cfg s b).emaFastArr.getD s.bars.length 0 =
      if s.bars.length = 0 then (sanitizeBar s.bars.getLast? b).c
      else (sanitizeBar s.bars.getLast? b).c * (2 / ((cfg.emaFastLen : ℚ) + 1)) +
        s.emaFastArr.getD (s.bars.length - 1) 0 * (1 - 2 / ((cfg.emaFastLen : ℚ) + 1)) := by
  rcases Nat.eq_zero_or_pos s.bars.length with h0 | hpos
  · obtain hb : s.bars = [] := List.length_eq_zero.mp h0
    obtain hf : s.emaFastArr = [] := List.length_eq_zero.mp (by rw [hlen, h0])
    rw [h0, if_pos rfl]
    simp [addBar, hb, hf]
  · rw [if_neg (by omega)]
    have hidx : s.bars.length + 1 - 2 = s.bars.length - 1 := by omega
    simp only [addBar, List.length_append, List.length_singleton, hidx]
    rw [if_neg (by omega)]
    rw [List.getD_append_right s.emaFastArr _ _ _ (le_of_eq hlen)]
    simp [hlen]

theorem addBar_emaSlowArr_last (cfg : Config) (s : SState) (b : Bar)
    (hlen : s.emaSlowArr.length = s.bars.length) :
    (addBar cfg s b).emaSlowArr.getD s.bars.length 0 =
      if s.bars.length = 0 then (sanitizeBar s.bars.getLast? b).c
      else (sanitizeBar s.bars.getLast? b).c * (2 / ((cfg.emaSlowLen : ℚ) + 1)) +
        s.emaSlowArr.getD (s.bars.length - 1) 0 * (1 - 2 / ((cfg.emaSlowLen : ℚ) + 1)) := by
  rcases Nat.eq_zero_or_pos s.bars.length with h0 | hpos
  · obtain hb : s.bars = [] := List.length_eq_zero.mp h0
    obtain hf : s.emaSlowArr = [] := List.length_eq_zero.mp (by rw [hlen, h0])
    rw [h0, if_pos rfl]
    simp [addBar, hb, hf]
  · rw [if_neg (by omega)]
    have hidx : s.bars.length + 1 - 2 = s.bars.length - 1 := by omega
    simp only [addBar, List.length_append, List.length_singleton, hidx]
    rw [if_neg (by omega)]
    rw [List.getD_append_right s.emaSlowArr _ _ _ (le_of_eq hlen)]
    simp [hlen]

theorem addBar_atrArr_last (cfg : Config) (s : SState) (b : Bar)
    (hlen : s.atrArr.length = s.bars.length) :
    (addBar cfg s b).atrArr.getD s.bars.length 0 =
      if s.bars.length = 0 then
        (sanitizeBar s.bars.getLast? b).h - (sanitizeBar s.bars.getLast? b).l
      else if s.bars.length + 1 ≤ cfg.atrLen then
        (trList (s.bars ++ [sanitizeBar s.bars.getLast? b])).sum / ((s.bars.length : ℚ) + 1)
      else
        (s.atrArr.getD (s.bars.length - 1) 0 * ((cfg.atrLen : ℚ) - 1) +
          trueRange (s.bars.getD (s.bars.length - 1) default)
            (sanitizeBar s.bars.getLast? b)) / (cfg.atrLen : ℚ) := by
  rcases Nat.eq_zero_or_pos s.bars.length with h0 | hpos
  · obtain hb : s.bars = [] := List.length_eq_zero.mp h0
    obtain ha : s.atrArr = [] := List.length_eq_zero.mp (by rw [hlen, h0])
    rw [h0, if_pos rfl]
    simp [addBar, hb, ha]
  · rw [if_neg (by omega)]
    have hidx : s.bars.length + 1 - 2 = s.bars.length - 1 := by omega
    have hprev : (s.bars ++ [sanitizeBar s.bars.getLast? b]).getD (s.bars.length - 1) default =
        s.bars.getD (s.bars.length - 1) default :=
      List.getD_append _ _ _ _ (by omega)
    simp only [addBar, List.length_append, List.length_singleton, hidx, hprev]
    rw [if_neg (by omega)]
    by_cases hwin : s.bars.length + 1 ≤ cfg.atrLen
    · rw [if_pos hwin, if_pos hwin]
      rw [List.getD_append_right s.atrArr _ _ _ (le_of_eq hlen)]
      simp [hlen]
      try push_cast
      try ring_nf
    · rw [if_neg hwin, if_neg hwin]
      rw [List.getD_append_right s.atrArr _ _ _ (le_of_eq hlen)]
      simp [hlen]

theorem stateFromBars_emaFast_spec (cfg : Config) (bs : List Bar) :
    ∀ i, i < bs.length →
      (i = 0 → (stateFromBars cfg bs).emaFastArr.getD 0 0 =
        ((stateFromBars cfg bs).bars.getD 0 default).c) ∧
      (1 ≤ i → (stateFromBars cfg bs).emaFastArr.getD i 0 =
        ((stateFromBars cfg bs).bars.getD i default).c * (2 / ((cfg.emaFastLen : ℚ) + 1)) +
          (stateFromBars cfg bs).emaFastArr.getD (i - 1) 0 *
            (1 - 2 / ((cfg.emaFastLen : ℚ) + 1))) := by
  induction bs using List.reverseRecOn with
  | nil =>
    intro i hi
    simp at hi
  | append_singleton bs b ih =>
    intro i hi
    rw [List.length_append, List.length_singleton] at hi
    obtain ⟨hb, hf, hsl, ha⟩ := stateFromBars_lengths cfg bs
    rcases Nat.lt_succ_iff_lt_or_eq.mp hi with hlt | heq
    · have e1 : (stateFromBars cfg (bs ++ [b])).emaFastArr.getD i 0 =
          (stateFromBars cfg bs).emaFastArr.getD i 0 := by
        rw [stateFromBars_snoc]
        exact addBar_emaFastArr_getD cfg _ b i (by rw [hf]; exact hlt)
      have e2 : (stateFromBars cfg (bs ++ [b])).bars.getD i default =
          (stateFromBars cfg bs).bars.getD i default := by
        rw [stateFromBars_snoc]
        exact addBar_bars_getD cfg _ b i (by rw [hb]; exact hlt)
      have e3 : (stateFromBars cfg (bs ++ [b])).emaFastArr.getD (i - 1) 0 =
          (stateFromBars cfg bs).emaFastArr.getD (i - 1) 0 := by
        rw [stateFromBars_snoc]
        exact addBar_emaFastArr_getD cfg _ b (i - 1) (by rw [hf]; omega)
      constructor
      · intro h0
        subst h0
        rw [e1, e2]
        exact (ih 0 hlt).1 rfl
      · intro h1
        rw [e1, e2, e3]
        exact (ih i hlt).2 h1
    · subst heq
      rcases Nat.eq_zero_or_pos bs.length with h0 | hpos
      · obtain hbs : bs = [] := List.length_eq_zero.mp h0
        subst hbs
        constructor
        · intro _
          simp [stateFromBars, addBar, initState]
        · intro h1
          simp at h1
      · constructor
        · intro h0
          omega
        · intro h1
          have hlast := addBar_emaFastArr_last cfg (stateFromBars cfg bs) b (by rw [hf, hb])
          rw [hb] at hlast
          have hbarlast : (addBar cfg (stateFromBars cfg bs) b).bars.getD bs.length default =
              sanitizeBar (stateFromBars cfg bs).bars.getLast? b := by
            rw [addBar_bars,
              List.getD_append_right ((stateFromBars cfg bs).bars) _ _ _ (le_of_eq hb)]
            simp [hb]
          have e3 : (addBar cfg (stateFromBars cfg bs) b).emaFastArr.getD (bs.length - 1) 0 =
              (stateFromBars cfg bs).emaFastArr.getD (bs.length - 1) 0 :=
            addBar_emaFastArr_getD cfg _ b (bs.length - 1) (by rw [hf]; omega)
          rw [stateFromBars_snoc, hlast, if_neg (by omega), hbarlast, e3]

theorem stateFromBars_emaSlow_spec (cfg : Config) (bs : List Bar) :
    ∀ i, i < bs.length →
      (i = 0 → (stateFromBars cfg bs).emaSlowArr.getD 0 0 =
        ((stateFromBars cfg bs).bars.getD 0 default).c) ∧
      (1 ≤ i → (stateFromBars cfg bs).emaSlowArr.getD i 0 =
        ((stateFromBars cfg bs).bars.getD i default).c * (2 / ((cfg.emaSlowLen : ℚ) + 1)) +
          (stateFromBars cfg bs).emaSlowArr.getD (i - 1) 0 *
            (1 - 2 / ((cfg.emaSlowLen : ℚ) + 1))) := by
  induction bs using List.reverseRecOn with
  | nil =>
    intro i hi
    simp at hi
  | append_singleton bs b ih =>
    intro i hi
    rw [List.length_append, List.length_singleton] at hi
    obtain ⟨hb, hf, hsl, ha⟩ := stateFromBars_lengths cfg bs
    rcases Nat.lt_succ_iff_lt_or_eq.mp hi with hlt | heq
    · have e1 : (stateFromBars cfg (bs ++ [b])).emaSlowArr.getD i 0 =
          (stateFromBars cfg bs).emaSlowArr.getD i 0 := by
        rw [stateFromBars_snoc]
        exact addBar_emaSlowArr_getD cfg _ b i (by rw [hsl]; exact hlt)
      have e2 : (stateFromBars cfg (bs ++ [b])).bars.getD i default =
          (stateFromBars cfg bs).bars.getD i default := by
        rw [stateFromBars_snoc]
        exact addBar_bars_getD cfg _ b i (by rw [hb]; exact hlt)
      have e3 : (stateFromBars cfg (bs ++ [b])).emaSlowArr.getD (i - 1) 0 =
          (stateFromBars cfg bs).emaSlowArr.getD (i - 1) 0 := by
        rw [stateFromBars_snoc]
        exact addBar_emaSlowArr_getD cfg _ b (i - 1) (by rw [hsl]; omega)
      constructor
      · intro h0
        subst h0
        rw [e1, e2]
        exact (ih 0 hlt).1 rfl
      · intro h1
        rw [e1, e2, e3]
        exact (ih i hlt).2 h1
    · subst heq
      rcases Nat.eq_zero_or_pos bs.length with h0 | hpos
      · obtain hbs : bs = [] := List.length_eq_zero.mp h0
        subst hbs
        constructor
        · intro _
          simp [stateFromBars, addBar, initState]
        · intro h1
          simp at h1
      · constructor
        · intro h0
          omega
        · intro h1
          have hlast := addBar_emaSlowArr_last cfg (stateFromBars cfg bs) b (by rw [hsl, hb])
          rw [hb] at hlast
          have hbarlast : (addBar cfg (stateFromBars cfg bs) b).bars.getD bs.length default =
              sanitizeBar (stateFromBars cfg bs).bars.getLast? b := by
            rw [addBar_bars,
              List.getD_append_right ((stateFromBars cfg bs).bars) _ _ _ (le_of_eq hb)]
            simp [hb]
          have e3 : (addBar cfg (stateFromBars cfg bs) b).emaSlowArr.getD (bs.length - 1) 0 =
              (stateFromBars cfg bs).emaSlowArr.getD (bs.length - 1) 0 :=
            addBar_emaSlowArr_getD cfg _ b (bs.length - 1) (by rw [hsl]; omega)
          rw [stateFromBars_snoc, hlast, if_neg (by omega), hbarlast, e3]

theorem stateFromBars_atr_spec (cfg : Config) (bs : List Bar) :
    ∀ i, i < bs.length →
      (i + 1 ≤ cfg.atrLen ∨ i = 0 →
        (stateFromBars cfg bs).atrArr.getD i 0 =
          (∑ j ∈ Finset.range (i + 1), trAt (stateFromBars cfg bs).bars j) / ((i : ℚ) + 1)) ∧
      (1 ≤ i → cfg.atrLen < i + 1 →
        (stateFromBars cfg bs).atrArr.getD i 0 =
          ((stateFromBars cfg bs).atrArr.getD (i - 1) 0 * ((cfg.atrLen : ℚ) - 1) +
            trAt (stateFromBars cfg bs).bars i) / (cfg.atrLen : ℚ)) := by
  induction bs using List.reverseRecOn with
  | nil =>
    intro i hi
    simp at hi
  | append_singleton bs b ih =>
    intro i hi
    rw [List.length_append, List.length_singleton] at hi
    obtain ⟨hb, hf, hsl, ha⟩ := stateFromBars_lengths cfg bs
    rcases Nat.lt_succ_iff_lt_or_eq.mp hi with hlt | heq
    · have e1 : (stateFromBars cfg (bs ++ [b])).atrArr.getD i 0 =
          (stateFromBars cfg bs).atrArr.getD i 0 := by
        rw [stateFromBars_snoc]
        exact addBar_atrArr_getD cfg _ b i (by rw [ha]; exact hlt)
      have e3 : (stateFromBars cfg (bs ++ [b])).atrArr.getD (i - 1) 0 =
          (stateFromBars cfg bs).atrArr.getD (i - 1) 0 := by
        rw [stateFromBars_snoc]
        exact addBar_atrArr_getD cfg _ b (i - 1) (by rw [ha]; omega)
      have etr : ∀ j, j ≤ i → trAt (stateFromBars cfg (bs ++ [b])).bars j =
          trAt (stateFromBars cfg bs).bars j := by
        intro j hj
        rw [stateFromBars_snoc, addBar_bars]
        exact trAt_append _ _ j (by rw [hb]; omega)
      constructor
      · intro hc
        rw [e1]
        rw [(ih i hlt).1 hc]
        congr 1
        exact Finset.sum_congr rfl fun j hj =>
          (etr j (by have := Finset.mem_range.mp hj; omega)).symm
      · intro h1 hc
        rw [e1, e3, etr i le_rfl]
        exact (ih i hlt).2 h1 hc
    · subst heq
      have hlast := addBar_atrArr_last cfg (stateFromBars cfg bs) b (by rw [ha, hb])
      rw [hb] at hlast
      have hbars : (addBar cfg (stateFromBars cfg bs) b).bars =
          (stateFromBars cfg bs).bars ++ [sanitizeBar (stateFromBars cfg bs).bars.getLast? b] :=
        addBar_bars cfg _ b
      rcases Nat.eq_zero_or_pos bs.length with h0 | hpos
      · obtain hbs : bs = [] := List.length_eq_zero.mp h0
        subst hbs
        constructor
        · intro _
          simp [stateFromBars, addBar, initState, trAt, trueRange]
        · intro h1 _
          simp at h1
      · constructor
        · intro hc
          have hc2 : bs.length + 1 ≤ cfg.atrLen := by
            rcases hc with hc | hc
            · exact hc
            · omega
          have hlen2 : ((stateFromBars cfg bs).bars ++
              [sanitizeBar (stateFromBars cfg bs).bars.getLast? b]).length = bs.length + 1 := by
            simp [hb]
          rw [stateFromBars_snoc, hlast, if_neg (by omega), if_pos hc2, hbars,
            trList_sum, hlen2]
        · intro h1 hc
          rw [stateFromBars_snoc, hlast, if_neg (by omega), if_neg (by omega)]
          have e3 : (addBar cfg (stateFromBars cfg bs) b).atrArr.getD (bs.length - 1) 0 =
              (stateFromBars cfg bs).atrArr.getD (bs.length - 1) 0 :=
            addBar_atrArr_getD cfg _ b (bs.length - 1) (by rw [ha]; omega)
          have etrlast : trAt (addBar cfg (stateFromBars cfg bs) b).bars bs.length =
              trueRange ((stateFromBars cfg bs).bars.getD (bs.length - 1) default)
                (sanitizeBar (stateFromBars cfg bs).bars.getLast? b) := by
            rw [hbars]
            have := trAt_snoc_last (stateFromBars cfg bs).bars
              (sanitizeBar (stateFromBars cfg bs).bars.getLast? b)
              (by intro hnil; rw [hnil] at hb; simp at hb; omega)
            rw [hb] at this
            exact this
          rw [e3, etrlast]

/-! ### Stream-indexed series lemmas -/

theorem stateUpTo_succ (cfg : Config) (f : ℕ → Bar) (n : ℕ) :
    stateUpTo cfg f (n + 1) = addBar cfg (stateUpTo cfg f n) (f n) := by
  rw [stateUpTo, stateUpTo, List.range_succ, List.map_append]
  exact stateFromBars_snoc cfg _ (f n)

theorem stateUpTo_lengths (cfg : Config) (f : ℕ → Bar) (n : ℕ) :
    (stateUpTo cfg f n).bars.length = n ∧
    (stateUpTo cfg f n).emaFastArr.length = n ∧
    (stateUpTo cfg f n).emaSlowArr.length = n ∧
    (stateUpTo cfg f n).atrArr.length = n := by
  have h := stateFromBars_lengths cfg ((List.range n).map f)
  simpa [stateUpTo] using h

theorem stateUpTo_bars_getD (cfg : Config) (f : ℕ → Bar) :
    ∀ n i, i < n → (stateUpTo cfg f n).bars.getD i default = storedBar cfg f i := by
  intro n
  induction n with
  | zero =>
    intro i hi
    omega
  | succ n ihn =>
    intro i hi
    rcases Nat.lt_succ_iff_lt_or_eq.mp hi with hlt | heq
    · rw [stateUpTo_succ,
        addBar_bars_getD cfg _ (f n) i (by rw [(stateUpTo_lengths cfg f n).1]; exact hlt)]
      exact ihn i hlt
    · subst heq
      rfl

theorem stateUpTo_emaFast_getD (cfg : Config) (f : ℕ → Bar) :
    ∀ n i, i < n → (stateUpTo cfg f n).emaFastArr.getD i 0 = emaFastSeq cfg f i := by
  intro n
  induction n with
  | zero =>
    intro i hi
    omega
  | succ n ihn =>
    intro i hi
    rcases Nat.lt_succ_iff_lt_or_eq.mp hi with hlt | heq
    · rw [stateUpTo_succ, addBar_emaFastArr_getD cfg _ (f n) i
        (by rw [(stateUpTo_lengths cfg f n).2.1]; exact hlt)]
      exact ihn i hlt
    · subst heq
      rfl

theorem stateUpTo_emaSlow_getD (cfg : Config) (f : ℕ → Bar) :
    ∀ n i, i < n → (stateUpTo cfg f n).emaSlowArr.getD i 0 = emaSlowSeq cfg f i := by
  intro n
  induction n with
  | zero =>
    intro i hi
    omega
  | succ n ihn =>
    intro i hi
    rcases Nat.lt_succ_iff_lt_or_eq.mp hi with hlt | heq
    · rw [stateUpTo_succ, addBar_emaSlowArr_getD cfg _ (f n) i
        (by rw [(stateUpTo_lengths cfg f n).2.2.1]; exact hlt)]
      exact ihn i hlt
    · subst heq
      rfl

theorem stateUpTo_atr_getD (cfg : Config) (f : ℕ → Bar) :
    ∀ n i, i < n → (stateUpTo cfg f n).atrArr.getD i 0 = atrSeq cfg f i := by
  intro n
  induction n with
  | zero =>
    intro i hi
    omega
  | succ n ihn =>
    intro i hi
    rcases Nat.lt_succ_iff_lt_or_eq.mp hi with hlt | heq
    · rw [stateUpTo_succ, addBar_atrArr_getD cfg _ (f n) i
        (by rw [(stateUpTo_lengths cfg f n).2.2.2]; exact hlt)]
      exact ihn i hlt
    · subst heq
      rfl

theorem trAt_stateUpTo (cfg : Config) (f : ℕ → Bar) (n i : ℕ) (hi : i < n) :
    trAt (stateUpTo cfg f n).bars i = trSeq cfg f i := by
  cases i with
  | zero =>
    simp only [trAt, trSeq, stateUpTo_bars_getD cfg f n 0 hi]
  | succ j =>
    have hj : j < n := by omega
    simp only [trAt, trSeq, stateUpTo_bars_getD cfg f n j hj,
      stateUpTo_bars_getD cfg f n (j + 1) hi]

theorem emaFastSeq_zero (cfg : Config) (f : ℕ → Bar) :
    emaFastSeq cfg f 0 = (storedBar cfg f 0).c := by
  have h := (stateFromBars_emaFast_spec cfg ((List.range 1).map f) 0 (by simp)).1 rfl
  exact h

theorem emaFastSeq_succ (cfg : Config) (f : ℕ → Bar) (i : ℕ) :
    emaFastSeq cfg f (i + 1) =
      (storedBar cfg f (i + 1)).c * (2 / ((cfg.emaFastLen : ℚ) + 1)) +
        emaFastSeq cfg f i * (1 - 2 / ((cfg.emaFastLen : ℚ) + 1)) := by
  have h := (stateFromBars_emaFast_spec cfg ((List.range (i + 2)).map f) (i + 1)
    (by simp)).2 (by omega)
  have hbar : (stateUpTo cfg f (i + 2)).bars.getD (i + 1) default =
      storedBar cfg f (i + 1) := stateUpTo_bars_getD cfg f (i + 2) (i + 1) (by omega)
  have hprev : (stateUpTo cfg f (i + 2)).emaFastArr.getD i 0 = emaFastSeq cfg f i :=
    stateUpTo_emaFast_getD cfg f (i + 2) i (by omega)
  rw [show stateFromBars cfg ((List.range (i + 2)).map f) = stateUpTo cfg f (i + 2)
    from rfl] at h
  rw [hbar] at h
  rw [show i + 1 - 1 = i from rfl] at h
  rw [hprev] at h
  exact h

theorem emaSlowSeq_zero (cfg : Config) (f : ℕ → Bar) :
    emaSlowSeq cfg f 0 = (storedBar cfg f 0).c := by
  have h := (stateFromBars_emaSlow_spec cfg ((List.range 1).map f) 0 (by simp)).1 rfl
  exact h

theorem emaSlowSeq_succ (cfg : Config) (f : ℕ → Bar) (i : ℕ) :
    emaSlowSeq cfg f (i + 1) =
      (storedBar cfg f (i + 1)).c * (2 / ((cfg.emaSlowLen : ℚ) + 1)) +
        emaSlowSeq cfg f i * (1 - 2 / ((cfg.emaSlowLen : ℚ) + 1)) := by
  have h := (stateFromBars_emaSlow_spec cfg ((List.range (i + 2)).map f) (i + 1)
    (by simp)).2 (by omega)
  have hbar : (stateUpTo cfg f (i + 2)).bars.getD (i + 1) default =
      storedBar cfg f (i + 1) := stateUpTo_bars_getD cfg f (i + 2) (i + 1) (by omega)
  have hprev : (stateUpTo cfg f (i + 2)).emaSlowArr.getD i 0 = emaSlowSeq cfg f i :=
    stateUpTo_emaSlow_getD cfg f (i + 2) i (by omega)
  rw [show stateFromBars cfg ((List.range (i + 2)).map f) = stateUpTo cfg f (i + 2)
    from rfl] at h
  rw [hbar] at h
  rw [show i + 1 - 1 = i from rfl] at h
  rw [hprev] at h
  exact h

theorem atrSeq_mean (cfg : Config) (f : ℕ → Bar) (i : ℕ)
    (hc : i + 1 ≤ cfg.atrLen ∨ i = 0) :
    atrSeq cfg f i = (∑ j ∈ Finset.range (i + 1), trSeq cfg f j) / ((i : ℚ) + 1) := by
  have h := (stateFromBars_atr_spec cfg ((List.range (i + 1)).map f) i (by simp)).1 hc
  rw [show stateFromBars cfg ((List.range (i + 1)).map f) = stateUpTo cfg f (i + 1)
    from rfl] at h
  rw [Finset.sum_congr rfl fun j hj =>
    trAt_stateUpTo cfg f (i + 1) j (Finset.mem_range.mp hj)] at h
  exact h

theorem atrSeq_wilder (cfg : Config) (f : ℕ → Bar) (i : ℕ) (h1 : 1 ≤ i)
    (hc : cfg.atrLen < i + 1) :
    atrSeq cfg f i =
      (atrSeq cfg f (i - 1) * ((cfg.atrLen : ℚ) - 1) + trSeq cfg f i) / (cfg.atrLen : ℚ) := by
  have h := (stateFromBars_atr_spec cfg ((List.range (i + 1)).map f) i (by simp)).2 h1 hc
  rw [show stateFromBars cfg ((List.range (i + 1)).map f) = stateUpTo cfg f (i + 1)
    from rfl] at h
  rw [stateUpTo_atr_getD cfg f (i + 1) (i - 1) (by omega)] at h
  rw [trAt_stateUpTo cfg f (i + 1) i (by omega)] at h
  exact h

/-- A sequence contracted by a fixed ratio `r ∈ [0, 1)` from index `N` on
vanishes in the limit. -/
theorem geometric_vanish (a : ℕ → ℚ) (r : ℚ) (hr0 : 0 ≤ r) (hr1 : r < 1) (N : ℕ)
    (hrec : ∀ i, N ≤ i → a (i + 1) = r * a i) :
    ∀ ε : ℚ, 0 < ε → ∃ M, ∀ i, M ≤ i → |a i| < ε := by
  have habs : ∀ j, |a (N + j)| = r ^ j * |a N| := by
    intro j
    induction j with
    | zero => simp
    | succ j ih =>
      have hr := hrec (N + j) (Nat.le_add_right N j)
      rw [show N + (j + 1) = N + j + 1 from rfl, hr, abs_mul, abs_of_nonneg hr0, ih,
        pow_succ]
      ring
  intro ε hε
  rcases eq_or_ne |a N| 0 with h0 | h0
  · refine ⟨N, fun i hi => ?_⟩
    obtain ⟨j, rfl⟩ := Nat.exists_eq_add_of_le hi
    rw [habs j, h0, mul_zero]
    exact hε
  · have hpos : 0 < |a N| := lt_of_le_of_ne (abs_nonneg _) (Ne.symm h0)
    obtain ⟨m, hm⟩ := exists_pow_lt_of_lt_one (div_pos hε hpos) hr1
    refine ⟨N + m, fun i hi => ?_⟩
    obtain ⟨j, rfl⟩ := Nat.exists_eq_add_of_le (Nat.le_trans (Nat.le_add_right N m) hi)
    have hjm : m ≤ j := by omega
    rw [habs j]
    calc r ^ j * |a N| ≤ r ^ m * |a N| :=
          mul_le_mul_of_nonneg_right (pow_le_pow_of_le_one hr0 hr1.le hjm) (abs_nonneg _)
      _ < ε := (lt_div_iff₀ hpos).mp hm

/-- Claim C6: over any accepted bar sequence, the ATR series satisfies
the spec's recurrence: `tr` as in `trAt`; indices below `atrLen` hold the
simple mean of all true ranges so far (recomputed from the raw bars);
indices at or above `atrLen` hold the Wilder smoothing
`(atr[i-1]*(atrLen-1) + tr[i]) / atrLen`. -/
theorem c6_atr_series (cfg : Config) (bs : List Bar) (hL : 1 ≤ cfg.atrLen) :
    (∀ i, i < (stateFromBars cfg bs).atrArr.length → i < cfg.atrLen →
      (stateFromBars cfg bs).atrArr.getD i 0 =
        (∑ j ∈ Finset.range (i + 1), trAt (stateFromBars cfg bs).bars j) / ((i : ℚ) + 1)) ∧
    (∀ i, i < (stateFromBars cfg bs).atrArr.length → cfg.atrLen ≤ i →
      (stateFromBars cfg bs).atrArr.getD i 0 =
        ((stateFromBars cfg bs).atrArr.getD (i - 1) 0 * ((cfg.atrLen : ℚ) - 1) +
          trAt (stateFromBars cfg bs).bars i) / (cfg.atrLen : ℚ)) := by
  obtain ⟨hb, hf, hsl, ha⟩ := stateFromBars_lengths cfg bs
  constructor
  · intro i hi hwarm
    rw [ha] at hi
    exact (stateFromBars_atr_spec cfg bs i hi).1 (Or.inl (by omega))
  · intro i hi hwil
    rw [ha] at hi
    exact (stateFromBars_atr_spec cfg bs i hi).2 (by omega) (by omega)

/-- Witness for C6 on a concrete two-bar sequence: the warmup ATR at
index 1 is the simple mean (8 + 5)/2 = 13/2. -/
theorem c6_atr_series_witness :
    1 ≤ defaultConfig.atrLen ∧
    1 < (stateFromBars defaultConfig barsC6).atrArr.length ∧
    (stateFromBars defaultConfig barsC6).atrArr.getD 1 0 =
      (∑ j ∈ Finset.range 2, trAt (stateFromBars defaultConfig barsC6).bars j) /
        ((1 : ℚ) + 1) ∧
    (stateFromBars defaultConfig barsC6).atrArr.getD 1 0 = 13/2 := by
  have hlen : (stateFromBars defaultConfig barsC6).atrArr.length = 2 := by
    rw [(stateFromBars_lengths defaultConfig barsC6).2.2.2]
    rfl
  refine ⟨by norm_num [defaultConfig], by omega, ?_, ?_⟩
  · exact (c6_atr_series defaultConfig barsC6 (by norm_num [defaultConfig])).1 1
      (by omega) (by norm_num [defaultConfig])
  · norm_num [stateFromBars, barsC6, addBar, initState, sanitizeBar, trList, trAux,
      trueRange, defaultConfig]

/-- Claim C9: with the seeded EMA recurrence of the code (first close
seeds the series; then `ema[i] = close*k + ema[i-1]*(1-k)` with
`k = 2/(L+1)`), a stream whose accepted closes are constantly `c` from
some index on drives both EMA series to `c`; if every accepted bar also
has high = low = c the ATR series converges to 0, and it is exactly 0
everywhere when high = low = close = c from the first bar on. -/
theorem c9_convergence (cfg : Config) (f : ℕ → Bar) (c : ℚ) (N : ℕ)
    (hfast : 1 ≤ cfg.emaFastLen) (hslow : 1 ≤ cfg.emaSlowLen) (hatr : 1 ≤ cfg.atrLen)
    (hc : ∀ i, N ≤ i → (storedBar cfg f i).c = c) :
    (emaFastSeq cfg f 0 = (storedBar cfg f 0).c ∧
      ∀ i, emaFastSeq cfg f (i + 1) =
        (storedBar cfg f (i + 1)).c * (2 / ((cfg.emaFastLen : ℚ) + 1)) +
          emaFastSeq cfg f i * (1 - 2 / ((cfg.emaFastLen : ℚ) + 1))) ∧
    (∀ ε : ℚ, 0 < ε → ∃ M, ∀ i, M ≤ i → |emaFastSeq cfg f i - c| < ε) ∧
    (∀ ε : ℚ, 0 < ε → ∃ M, ∀ i, M ≤ i → |emaSlowSeq cfg f i - c| < ε) ∧
    ((∀ i, (storedBar cfg f i).h = c ∧ (storedBar cfg f i).l = c) →
      ∀ ε : ℚ, 0 < ε → ∃ M, ∀ i, M ≤ i → |atrSeq cfg f i| < ε) ∧
    ((∀ i, (storedBar cfg f i).h = c ∧ (storedBar cfg f i).l = c ∧
        (storedBar cfg f i).c = c) →
      ∀ i, atrSeq cfg f i = 0) := by
  have emaConv : ∀ L : ℕ, 1 ≤ L → ∀ e : ℕ → ℚ,
      (∀ i, e (i + 1) = (storedBar cfg f (i + 1)).c * (2 / ((L : ℚ) + 1)) +
        e i * (1 - 2 / ((L : ℚ) + 1))) →
      ∀ ε : ℚ, 0 < ε → ∃ M, ∀ i, M ≤ i → |e i - c| < ε := by
    intro L hL e herec
    have hL1 : (1 : ℚ) ≤ (L : ℚ) := by exact_mod_cast hL
    have hk0 : 0 < 2 / ((L : ℚ) + 1) := div_pos (by norm_num) (by linarith)
    have hk1 : 2 / ((L : ℚ) + 1) ≤ 1 := by
      rw [div_le_one (by linarith)]
      linarith
    have hrec : ∀ i, N ≤ i →
        e (i + 1) - c = (1 - 2 / ((L : ℚ) + 1)) * (e i - c) := by
      intro i hi
      rw [herec i, hc (i + 1) (by omega)]
      ring
    exact geometric_vanish (fun i => e i - c) (1 - 2 / ((L : ℚ) + 1))
      (by linarith) (by linarith) N hrec
  refine ⟨⟨emaFastSeq_zero cfg f, fun i => emaFastSeq_succ cfg f i⟩, ?_, ?_, ?_, ?_⟩
  · exact emaConv cfg.emaFastLen hfast (emaFastSeq cfg f) (emaFastSeq_succ cfg f)
  · exact emaConv cfg.emaSlowLen hslow (emaSlowSeq cfg f) (emaSlowSeq_succ cfg f)
  · intro hhl
    have hL1 : (1 : ℚ) ≤ (cfg.atrLen : ℚ) := by exact_mod_cast hatr
    have hL0 : (cfg.atrLen : ℚ) ≠ 0 := by
      intro h
      rw [h] at hL1
      linarith
    have htr0 : ∀ j, N + 1 ≤ j → trSeq cfg f j = 0 := by
      intro j hj
      obtain ⟨m, rfl⟩ : ∃ m, j = m + 1 := ⟨j - 1, by omega⟩
      simp [trSeq, trueRange, (hhl (m + 1)).1, (hhl (m + 1)).2, hc m (by omega)]
    have hrec : ∀ i, max cfg.atrLen N ≤ i → atrSeq cfg f (i + 1) =
        ((cfg.atrLen : ℚ) - 1) / (cfg.atrLen : ℚ) * atrSeq cfg f i := by
      intro i hi
      have h1 : cfg.atrLen ≤ i := le_trans (le_max_left _ _) hi
      have h2 : N ≤ i := le_trans (le_max_right _ _) hi
      rw [atrSeq_wilder cfg f (i + 1) (by omega) (by omega),
        htr0 (i + 1) (by omega), show i + 1 - 1 = i from rfl, add_zero,
        mul_comm (atrSeq cfg f i) _, div_mul_eq_mul_div]
    exact geometric_vanish (atrSeq cfg f) (((cfg.atrLen : ℚ) - 1) / (cfg.atrLen : ℚ))
      (div_nonneg (by linarith) (by linarith))
      ((div_lt_one (by linarith)).mpr (by linarith)) (max cfg.atrLen N) hrec
  · intro hall
    have htr : ∀ j, trSeq cfg f j = 0 := by
      intro j
      cases j with
      | zero => simp [trSeq, (hall 0).1, (hall 0).2.1]
      | succ m =>
        simp [trSeq, trueRange, (hall (m + 1)).1, (hall (m + 1)).2.1, (hall m).2.2]
    intro i
    induction i with
    | zero =>
      rw [atrSeq_mean cfg f 0 (Or.inr rfl)]
      simp [htr 0]
    | succ m ihm =>
      rcases le_or_lt (m + 2) cfg.atrLen with hle | hgt
      · rw [atrSeq_mean cfg f (m + 1) (Or.inl hle)]
        simp [htr]
      · rw [atrSeq_wilder cfg f (m + 1) (by omega) (by omega),
          show m + 1 - 1 = m from rfl, ihm, htr (m + 1)]
        ring

/-- `sanitizeBar` keeps a bar with OHLC 1 when the previous close is 1. -/
theorem sanitize_one (o : Option Bar) (h : ∀ p, o = some p → p.c = 1) (b : Bar)
    (hb : b.o = 1 ∧ b.h = 1 ∧ b.l = 1 ∧ b.c = 1) : sanitizeBar o b = b := by
  cases o with
  | none => rfl
  | some p =>
    have hc := h p rfl
    rw [sanitizeBar]
    norm_num [hc, hb.1, hb.2.1, hb.2.2.1, hb.2.2.2]

/-- The constant stream is never clamped: the accepted bars are the
input bars. -/
theorem stateUpTo_constBar_bars (n : ℕ) :
    (stateUpTo defaultConfig constBar n).bars = (List.range n).map constBar := by
  induction n with
  | zero => rfl
  | succ n ih =>
    rw [stateUpTo_succ, addBar_bars, ih, List.range_succ, List.map_append]
    have hlast : ∀ p, ((List.range n).map constBar).getLast? = some p → p.c = 1 := by
      intro p hp
      obtain ⟨hne, hpe⟩ := List.mem_getLast?_eq_getLast (Option.mem_def.mpr hp)
      obtain ⟨j, _, hj⟩ := List.mem_map.mp (hpe ▸ List.getLast_mem hne)
      rw [← hj]
      rfl
    rw [sanitize_one _ hlast _ ⟨rfl, rfl, rfl, rfl⟩]
    simp

theorem storedBar_constBar (i : ℕ) : storedBar defaultConfig constBar i = constBar i := by
  rw [storedBar, stateUpTo_constBar_bars]
  rw [List.getD_eq_getElem _ _ (by simp)]
  simp

/-- Witness for C9 on the constant stream with `c = 1` and `N = 0`. -/
theorem c9_convergence_witness :
    (0 : ℚ) < 1/1000 ∧
    (∃ M, ∀ i, M ≤ i → |emaFastSeq defaultConfig constBar i - 1| < 1/1000) ∧
    (∃ M, ∀ i, M ≤ i → |emaSlowSeq defaultConfig constBar i - 1| < 1/1000) ∧
    atrSeq defaultConfig constBar 5 = 0 := by
  have h := c9_convergence defaultConfig constBar 1 0 (by norm_num [defaultConfig])
    (by norm_num [defaultConfig]) (by norm_num [defaultConfig])
    (fun i _ => by rw [storedBar_constBar]; rfl)
  refine ⟨by norm_num, h.2.1 (1/1000) (by norm_num), h.2.2.1 (1/1000) (by norm_num), ?_⟩
  exact h.2.2.2.2 (fun i => by rw [storedBar_constBar]; exact ⟨rfl, rfl, rfl⟩) 5

end TokenSurfer
